import Mathlib

set_option maxRecDepth 100000

/-!
# Verification of the action-item Response Extractor

Shallow embedding of the action-item extraction pipeline of
`services/llm_service.py` and of the `POST /process_audio` handler of
`app/main.py`, together with proofs of the specified properties.

Python strings are modelled as Lean `String` / `List Char`; `str.strip()`,
`str.split`, `str.lower`, the regexes `\[.*\]` and `^[-*]\s*`, and
`json.loads` are each given explicit executable models below.  I/O calls
(the speech model, the Ollama HTTP endpoint, SQLite) are modelled as
explicit outcome parameters (`Except`), since the handler only branches on
whether they return a value or raise.
-/

/-- One extracted action item: the four string fields produced by the
extractor (`description`, `assignee`, `due_date`, `priority`). -/
structure ActionItem where
  description : String
  assignee : String
  due_date : String
  priority : String
deriving DecidableEq, Repr

/-- Whitespace as recognised by Python's `str.strip()` and the regex
class `\s` (ASCII part: space, tab, newline, carriage return, vertical
tab, form feed).  Unicode whitespace beyond ASCII is not modelled. -/
def isPyWs (c : Char) : Bool :=
  c = ' ' || c = '\t' || c = '\n' || c = '\r' || c = Char.ofNat 11 || c = Char.ofNat 12

/-- `str.strip()` on the character list: drop leading and trailing
whitespace. -/
def pyStripL (cs : List Char) : List Char :=
  ((cs.dropWhile isPyWs).reverse.dropWhile isPyWs).reverse

/-- `str.strip()` on strings. -/
def pyStrip (s : String) : String := ⟨pyStripL s.data⟩

/-- `text.split('\n')` : split on newline, keeping empty segments;
`[]` input (empty string) yields one empty segment, as in Python. -/
def splitLines : List Char → List (List Char)
  | [] => [[]]
  | c :: rest =>
    if c = '\n' then [] :: splitLines rest
    else
      match splitLines rest with
      | l :: ls => (c :: l) :: ls
      | [] => [[c]]

/-- `pat.isPrefixOf hay` as a plain Boolean function on character lists. -/
def leadsWith : List Char → List Char → Bool
  | [], _ => true
  | _ :: _, [] => false
  | a :: as, b :: bs => a = b && leadsWith as bs

/-- Python's `pat in hay` substring test. -/
def containsSubL (hay pat : List Char) : Bool :=
  (List.range (hay.length + 1)).any fun i => leadsWith pat (hay.drop i)

/-- The pattern `"action"` used by the fallback heuristic. -/
def actionPat : List Char := ['a', 'c', 't', 'i', 'o', 'n']

/-- `re.sub(r'^[-*]\s*', '', line)` : remove one leading `-` or `*`
bullet marker together with the whitespace run following it. -/
def stripBulletL (cs : List Char) : List Char :=
  match cs with
  | c :: rest => if c = '-' || c = '*' then rest.dropWhile isPyWs else cs
  | [] => cs

/-- An action item with all fields except the description at their
defaults, as built by the fallback path. -/
def mkDefaultItem (desc : List Char) : ActionItem :=
  ⟨⟨desc⟩, "Unassigned", "No due date specified", "Medium"⟩

/-- One iteration of the fallback loop of `_parse_text_action_items`:
strip the line; if it is non-empty and starts with `-` or `*` or its
lowercase form contains `"action"`, strip a leading bullet marker and, if
anything remains, emit an item with default fields. -/
def emitLine (raw : List Char) : Option ActionItem :=
  let line := pyStripL raw
  if line ≠ [] ∧
      (line.head? = some '-' ∨ line.head? = some '*' ∨
        containsSubL (line.map Char.toLower) actionPat = true) then
    let clean := stripBulletL line
    if clean ≠ [] then some (mkDefaultItem clean) else none
  else none

/-- `LLMService._parse_text_action_items`: the line-based fallback.
Splits on newlines, emits at most one item per qualifying line, and
returns the first 10 items (`action_items[:10]`). -/
def parse_text_action_items (text : String) : List ActionItem :=
  ((splitLines text.data).filterMap emitLine).take 10

/-! ## A model of `json.loads`

`_parse_action_items` feeds the bracketed region of the response to
`json.loads`.  The parser below implements the JSON grammar accepted by
Python's `json` module (RFC 8259 plus the `NaN`/`Infinity`/`-Infinity`
literals; numbers are kept as lexemes since the code never computes with
them; `\uXXXX` escapes outside the valid codepoint range degrade to NUL
instead of lone surrogates).  Recursion is by explicit fuel; `json_loads`
supplies fuel amply larger than the input, so only absurdly deep nesting
is rejected — where CPython raises `RecursionError` anyway. -/

/-- The `{` character, kept as a named constant. -/
def jLBrace : Char := Char.ofNat 123

/-- The `}` character, kept as a named constant. -/
def jRBrace : Char := Char.ofNat 125

/-- A JSON value as produced by `json.loads`.  Objects are association
lists in source order; Python dict semantics (later duplicate keys win)
are applied at lookup time by `getField`. -/
inductive JValue where
  | str (s : String)
  | num (lexeme : String)
  | jbool (b : Bool)
  | jnull
  | arr (elems : List JValue)
  | obj (fields : List (String × JValue))

/-- JSON inter-token whitespace (exactly the four characters skipped by
Python's `json` scanner). -/
def skipWs (cs : List Char) : List Char :=
  cs.dropWhile fun c => c = ' ' || c = '\t' || c = '\n' || c = '\r'

/-- Value of one hexadecimal digit. -/
def hexVal (c : Char) : Option Nat :=
  if '0' ≤ c ∧ c ≤ '9' then some (c.toNat - 48)
  else if 'a' ≤ c ∧ c ≤ 'f' then some (c.toNat - 87)
  else if 'A' ≤ c ∧ c ≤ 'F' then some (c.toNat - 55)
  else none

/-- Body of a JSON string literal after the opening quote: returns the
decoded string and the remaining input after the closing quote. -/
def parseStringBody : List Char → List Char → Option (String × List Char)
  | [], _ => none
  | '"' :: rest, acc => some (⟨acc.reverse⟩, rest)
  | '\\' :: '"' :: rest, acc => parseStringBody rest ('"' :: acc)
  | '\\' :: '\\' :: rest, acc => parseStringBody rest ('\\' :: acc)
  | '\\' :: '/' :: rest, acc => parseStringBody rest ('/' :: acc)
  | '\\' :: 'b' :: rest, acc => parseStringBody rest (Char.ofNat 8 :: acc)
  | '\\' :: 'f' :: rest, acc => parseStringBody rest (Char.ofNat 12 :: acc)
  | '\\' :: 'n' :: rest, acc => parseStringBody rest ('\n' :: acc)
  | '\\' :: 'r' :: rest, acc => parseStringBody rest ('\r' :: acc)
  | '\\' :: 't' :: rest, acc => parseStringBody rest ('\t' :: acc)
  | '\\' :: 'u' :: h1 :: h2 :: h3 :: h4 :: rest, acc =>
    (match hexVal h1, hexVal h2, hexVal h3, hexVal h4 with
     | some a, some b, some c, some d =>
       parseStringBody rest (Char.ofNat (((a * 16 + b) * 16 + c) * 16 + d) :: acc)
     | _, _, _, _ => none)
  | '\\' :: _, _ => none
  | c :: rest, acc => if c.toNat < 32 then none else parseStringBody rest (c :: acc)

/-- Integer part of a JSON number: `0` or a nonzero digit followed by
digits (no leading zeros). -/
def parseIntPart : List Char → Option (List Char × List Char)
  | '0' :: rest => some (['0'], rest)
  | c :: rest =>
    if c.isDigit then
      some (c :: rest.takeWhile Char.isDigit, rest.dropWhile Char.isDigit)
    else none
  | [] => none

/-- Optional fraction part `.digits`; consumed only when at least one
digit follows the point, as in the `json` module's number regex. -/
def parseFracPart (cs : List Char) : List Char × List Char :=
  match cs with
  | '.' :: rest =>
    if rest.takeWhile Char.isDigit = [] then ([], cs)
    else ('.' :: rest.takeWhile Char.isDigit, rest.dropWhile Char.isDigit)
  | _ => ([], cs)

/-- Optional exponent part `[eE][+-]?digits`. -/
def parseExpPart (cs : List Char) : List Char × List Char :=
  match cs with
  | e :: rest =>
    if e = 'e' || e = 'E' then
      let (sgn, rest2) :=
        match rest with
        | s :: r2 => if s = '+' || s = '-' then ([s], r2) else (([] : List Char), rest)
        | [] => (([] : List Char), rest)
      if rest2.takeWhile Char.isDigit = [] then ([], cs)
      else (e :: (sgn ++ rest2.takeWhile Char.isDigit), rest2.dropWhile Char.isDigit)
    else ([], cs)
  | [] => ([], cs)

/-- A JSON number, kept as its lexeme. -/
def parseNumber (cs : List Char) : Option (JValue × List Char) :=
  let (sgn, cs1) :=
    match cs with
    | '-' :: rest => (['-'], rest)
    | _ => (([] : List Char), cs)
  match parseIntPart cs1 with
  | none => none
  | some (ip, cs2) =>
    let (fp, cs3) := parseFracPart cs2
    let (ep, cs4) := parseExpPart cs3
    some (JValue.num ⟨sgn ++ ip ++ fp ++ ep⟩, cs4)

mutual

/-- Parse one JSON value at the head of the input (leading whitespace
allowed), returning it with the rest of the input. -/
def parseValue : Nat → List Char → Option (JValue × List Char)
  | 0, _ => none
  | fuel + 1, cs =>
    match skipWs cs with
    | 't' :: 'r' :: 'u' :: 'e' :: rest => some (JValue.jbool true, rest)
    | 'f' :: 'a' :: 'l' :: 's' :: 'e' :: rest => some (JValue.jbool false, rest)
    | 'n' :: 'u' :: 'l' :: 'l' :: rest => some (JValue.jnull, rest)
    | 'N' :: 'a' :: 'N' :: rest => some (JValue.num "NaN", rest)
    | 'I' :: 'n' :: 'f' :: 'i' :: 'n' :: 'i' :: 't' :: 'y' :: rest =>
      some (JValue.num "Infinity", rest)
    | '-' :: 'I' :: 'n' :: 'f' :: 'i' :: 'n' :: 'i' :: 't' :: 'y' :: rest =>
      some (JValue.num "-Infinity", rest)
    | '[' :: rest => parseArrStart fuel rest
    | '"' :: rest => (parseStringBody rest []).map fun p => (JValue.str p.1, p.2)
    | c :: rest =>
      if c = jLBrace then parseObjStart fuel rest else parseNumber (c :: rest)
    | [] => none

/-- After an opening `[`: empty array or a sequence of elements. -/
def parseArrStart : Nat → List Char → Option (JValue × List Char)
  | 0, _ => none
  | fuel + 1, cs =>
    match skipWs cs with
    | ']' :: rest => some (JValue.arr [], rest)
    | cs' => parseArrElems fuel cs' []

/-- Comma-separated array elements up to the closing `]`. -/
def parseArrElems : Nat → List Char → List JValue → Option (JValue × List Char)
  | 0, _, _ => none
  | fuel + 1, cs, acc =>
    match parseValue fuel cs with
    | none => none
    | some (v, rest) =>
      match skipWs rest with
      | ',' :: rest2 => parseArrElems fuel rest2 (v :: acc)
      | ']' :: rest2 => some (JValue.arr (v :: acc).reverse, rest2)
      | _ => none

/-- After an opening brace: empty object or a sequence of members. -/
def parseObjStart : Nat → List Char → Option (JValue × List Char)
  | 0, _ => none
  | fuel + 1, cs =>
    match skipWs cs with
    | [] => none
    | c :: rest =>
      if c = jRBrace then some (JValue.obj [], rest)
      else parseObjMembers fuel (c :: rest) []

/-- Comma-separated `"key": value` members up to the closing brace. -/
def parseObjMembers : Nat → List Char → List (String × JValue) → Option (JValue × List Char)
  | 0, _, _ => none
  | fuel + 1, cs, acc =>
    match skipWs cs with
    | '"' :: rest =>
      (match parseStringBody rest [] with
       | none => none
       | some (key, rest2) =>
         match skipWs rest2 with
         | ':' :: rest3 =>
           (match parseValue fuel rest3 with
            | none => none
            | some (v, rest4) =>
              match skipWs rest4 with
              | ',' :: rest5 => parseObjMembers fuel rest5 ((key, v) :: acc)
              | c :: rest5 =>
                if c = jRBrace then some (JValue.obj ((key, v) :: acc).reverse, rest5)
                else none
              | [] => none)
         | _ => none)
    | _ => none

end

/-- `json.loads`: parse a complete JSON document; trailing whitespace is
allowed, any other trailing data is an error.  `none` models
`json.JSONDecodeError`. -/
def json_loads (cs : List Char) : Option JValue :=
  match parseValue (4 * cs.length + 16) cs with
  | some (v, rest) => if skipWs rest = [] then some v else none
  | none => none

/-! ## The structured path of `_parse_action_items` -/

/-- `re.search(r'\[.*\]', response, re.DOTALL)`: the region from the
leftmost `[` that has some `]` after it through the last `]` of the
input; `none` when no such pair exists. -/
def extractRegionL (cs : List Char) : Option (List Char) :=
  match List.findIdx? (fun c => c == '[') cs,
        List.findIdx? (fun c => c == ']') cs.reverse with
  | some i, some k =>
    let j := cs.length - 1 - k
    if i < j then some ((cs.drop i).take (j - i + 1)) else none
  | _, _ => none

/-- `item.get(k)` on a parsed JSON object: Python dicts keep the last
occurrence of a duplicated key. -/
def getField (fields : List (String × JValue)) (k : String) : Option JValue :=
  match fields.reverse.find? (fun p => p.1 == k) with
  | some p => some p.2
  | none => none

/-- `item.get(k, dflt).strip()`: the field's value stripped when it is a
string, the stripped default when the key is absent, and `none` —
modelling the `AttributeError` raised by `.strip()` — when the value is
present but not a string. -/
def cleanedField (fields : List (String × JValue)) (k dflt : String) : Option String :=
  match getField fields k with
  | none => some (pyStrip dflt)
  | some (JValue.str s) => some (pyStrip s)
  | some _ => none

/-- One iteration of the cleanup loop of `_parse_action_items`.
`none` models an exception escaping the loop; `some none` a skipped
entry (not a dict, no `description` key, or empty stripped description);
`some (some a)` an appended item. -/
def cleanItem (v : JValue) : Option (Option ActionItem) :=
  match v with
  | JValue.obj fields =>
    if (getField fields "description").isSome then
      match cleanedField fields "description" "",
            cleanedField fields "assignee" "Unassigned",
            cleanedField fields "due_date" "No due date specified",
            cleanedField fields "priority" "Medium" with
      | some d, some a, some dd, some p =>
        if d ≠ "" then some (some ⟨d, a, dd, p⟩) else some none
      | _, _, _, _ => none
    else some none
  | _ => some none

/-- The cleanup loop over the parsed array; an exception at any entry
aborts the whole loop (`none`). -/
def cleanItems : List JValue → Option (List ActionItem)
  | [] => some []
  | v :: vs =>
    match cleanItem v with
    | none => none
    | some o =>
      (cleanItems vs).map fun rest =>
        match o with
        | some a => a :: rest
        | none => rest

/-- `LLMService._parse_action_items`: extract the bracketed region and
parse it as JSON; on `json.JSONDecodeError` fall back to the line-based
parser; on any other exception during cleanup return `[]`; when no
bracketed region exists fall back to the line-based parser. -/
def parse_action_items (response : String) : List ActionItem :=
  match extractRegionL response.data with
  | some region =>
    match json_loads region with
    | none => parse_text_action_items response
    | some (JValue.arr items) =>
      (match cleanItems items with
       | some cleaned => cleaned
       | none => [])
    | some _ => []
  | none => parse_text_action_items response

/-! ## The `POST /process_audio` handler of `app/main.py`

The handler is modelled as a function of the outcomes of its effectful
steps: whether the form carried a file, the file name, and the results
of the speech-to-text call, the two Ollama calls, and the database
saves, each an `Except` whose `error` case models a raised exception
with its message.  The Boolean in the result records whether the saved
upload is still present in the uploads directory when the response is
returned (`os.remove` runs only on the success path and is modelled as
succeeding). -/

/-- `LLMService._format_summary`. -/
def format_summary (raw : String) : String :=
  if raw.data.head? = some '#' then raw else "# Meeting Summary\n\n" ++ raw

/-- `LLMService.generate_summary`, as a function of the outcome of
`_call_ollama`: the formatted summary, or — when the call raised — an
error-text summary returned without raising. -/
def generate_summary (callResult : Except String String) : String :=
  match callResult with
  | Except.ok raw => format_summary raw
  | Except.error e => "Error generating summary: " ++ e

/-- `LLMService.extract_action_items`, as a function of the outcome of
`_call_ollama`: the parsed items, or `[]` when the call raised. -/
def extract_action_items (callResult : Except String String) : List ActionItem :=
  match callResult with
  | Except.ok response => parse_action_items response
  | Except.error _ => []

/-- The JSON body returned by `process_audio`: the success payload or an
`{error}` object with its HTTP status code. -/
inductive Response where
  | success (meeting_id : Nat) (summary : String) (action_items : List ActionItem)
      (transcription : String)
  | failure (code : Nat) (error : String)
deriving DecidableEq, Repr

/-- The loop saving each extracted action item; the first raising save
aborts the loop with its exception. -/
def runSaves (save : ActionItem → Except String Unit) : List ActionItem → Except String Unit
  | [] => Except.ok ()
  | a :: rest =>
    match save a with
    | Except.error e => Except.error e
    | Except.ok _ => runSaves save rest

/-- The `process_audio` route handler.  Returns the HTTP response
together with a flag telling whether the uploaded file is still on disk. -/
def process_audio (hasAudioFile : Bool) (filename : String)
    (transcribe : Except String String)
    (summaryCall : Except String String)
    (extractCall : Except String String)
    (saveMeeting : Except String Nat)
    (saveItem : ActionItem → Except String Unit) : Response × Bool :=
  if ¬ hasAudioFile then (Response.failure 400 "No audio file provided", false)
  else if filename = "" then (Response.failure 400 "No file selected", false)
  else
    match transcribe with
    | Except.error e => (Response.failure 500 e, true)
    | Except.ok transcription =>
      let summary := generate_summary summaryCall
      let action_items := extract_action_items extractCall
      match saveMeeting with
      | Except.error e => (Response.failure 500 e, true)
      | Except.ok meeting_id =>
        match runSaves saveItem action_items with
        | Except.error e => (Response.failure 500 e, true)
        | Except.ok _ =>
          (Response.success meeting_id summary action_items
            (if transcription.length > 500 then transcription.take 500 ++ "..."
             else transcription), false)

/-! ## Remaining definitions used by the statements -/

/-- Whether an optional JSON field value would survive `.strip()`:
absent (the string default is used) or a string. -/
def strOrAbsent : Option JValue → Bool
  | none => true
  | some (JValue.str _) => true
  | _ => false

/-- A parsed array entry on which the cleanup loop of
`_parse_action_items` is guaranteed to succeed and keep the entry: an
object whose `description` is a string that is non-empty after
stripping, and whose other three fields are strings when present. -/
def goodItem : JValue → Bool
  | JValue.obj fields =>
    (match getField fields "description" with
     | some (JValue.str d) => pyStrip d != ""
     | _ => false) &&
    strOrAbsent (getField fields "assignee") &&
    strOrAbsent (getField fields "due_date") &&
    strOrAbsent (getField fields "priority") &&
    true
  | _ => false

/-- The cleaned record the structured path produces from a good entry:
each present field stripped, each absent field at its default. -/
def expectedClean (v : JValue) : ActionItem :=
  match v with
  | JValue.obj fields =>
    ⟨(match getField fields "description" with
      | some (JValue.str d) => pyStrip d
      | _ => ""),
     (match getField fields "assignee" with
      | some (JValue.str s) => pyStrip s
      | _ => "Unassigned"),
     (match getField fields "due_date" with
      | some (JValue.str s) => pyStrip s
      | _ => "No due date specified"),
     (match getField fields "priority" with
      | some (JValue.str s) => pyStrip s
      | _ => "Medium")⟩
  | _ => ⟨"", "", "", ""⟩

/-- The flat qualification test of the fallback rule, as the spec states
it: non-empty after stripping, bullet prefix or the substring `action`
in lowercase, and a non-empty remainder after removing the bullet. -/
def qualifies (raw : List Char) : Bool :=
  decide (pyStripL raw ≠ [] ∧
    ((pyStripL raw).head? = some '-' ∨ (pyStripL raw).head? = some '*' ∨
      containsSubL ((pyStripL raw).map Char.toLower) actionPat = true) ∧
    stripBulletL (pyStripL raw) ≠ [])

/-- Join character lists with a newline between consecutive elements
(the inverse of splitting on newlines). -/
def joinLinesL : List (List Char) → List Char
  | [] => []
  | [l] => l
  | l :: ls => l ++ '\n' :: joinLinesL ls

/-- The plain-text rendering of a list of descriptions, one per line. -/
def renderLines (ss : List String) : String :=
  ⟨joinLinesL (ss.map String.data)⟩

/-- The C8 counterexample input: its bracketed region (first `[` to
last `]`) is malformed, so the first run falls back to the line parser;
the single emitted description, re-fed to the extractor, contains a
well-formed three-object array region. -/
def c8Input : String :=
  "[ oops\n[\x7b\"description\":\"a\"\x7d,\x7b\"description\":\"b\"\x7d,\x7b\"description\":\"c\"\x7d] action"

/-- Fifteen qualifying bullet lines and no JSON array (Concrete
scenario 3 of the spec). -/
def fifteenBullets : String :=
  "- a1\n- a2\n- a3\n- a4\n- a5\n- a6\n- a7\n- a8\n- a9\n- a10\n- a11\n- a12\n- a13\n- a14\n- a15"

/-- First ten of the fifteen bullet descriptions, in input order. -/
def firstTenItems : List ActionItem :=
  [mkDefaultItem "a1".data, mkDefaultItem "a2".data, mkDefaultItem "a3".data,
   mkDefaultItem "a4".data, mkDefaultItem "a5".data, mkDefaultItem "a6".data,
   mkDefaultItem "a7".data, mkDefaultItem "a8".data, mkDefaultItem "a9".data,
   mkDefaultItem "a10".data]

/-- Concrete scenario 1 input of the spec (structured path, one good
entry and one entry with an empty description). -/
def scenario1Input : String :=
  "Here are the items: [\x7b\"description\":\"Send report\",\"assignee\":\"Bob\",\"due_date\":\"2024-01-05\",\"priority\":\"High\"\x7d,\x7b\"description\":\"\",\"assignee\":\"Amy\"\x7d]"

/-- A well-formed one-object array whose `description` is a non-empty
string but whose `priority` is a JSON number. -/
def c1Input : String := "[\x7b\"description\":\"x\",\"priority\":3\x7d]"

/-- A two-object array exercising the structured path with present and
missing optional fields. -/
def c1WitnessInput : String :=
  "[\x7b\"description\":\"Send report\",\"assignee\":\"Bob\"\x7d,\x7b\"description\":\"Ping team\"\x7d]"

/-- An input whose bracketed region parses as JSON but whose cleanup
raises (`description` is a number), preceded by a line the fallback
would emit. -/
def c2Input : String := "- Action one\n[\x7b\"description\": 5\x7d]"

/-! ## Helper lemmas on `dropWhile`, suffixes and stripping -/

theorem dropWhile_head_not {α : Type} (p : α → Bool) :
    ∀ (l : List α) (c : α) (t : List α), l.dropWhile p = c :: t → p c = false := by
  intro l
  induction l with
  | nil => intro c t h; simp [List.dropWhile] at h
  | cons a as ih =>
    intro c t h
    rw [List.dropWhile_cons] at h
    by_cases hp : p a
    · rw [if_pos hp] at h; exact ih c t h
    · rw [if_neg hp] at h
      cases h
      simpa using hp

theorem dropWhile_eq_self {α : Type} (p : α → Bool) (l : List α)
    (h : ∀ c, l.head? = some c → p c = false) : l.dropWhile p = l := by
  cases l with
  | nil => rfl
  | cons a as =>
    rw [List.dropWhile_cons, h a rfl]
    simp

theorem getLast?_of_suffix {α : Type} {s l : List α} (h : s <:+ l) (hne : s ≠ []) :
    l.getLast? = s.getLast? := by
  obtain ⟨t, rfl⟩ := h
  exact List.getLast?_append_of_ne_nil t hne

theorem pyStripL_head (cs : List Char) (c : Char) (t : List Char)
    (h : pyStripL cs = c :: t) : isPyWs c = false := by
  unfold pyStripL at h
  have hd2ne : (cs.dropWhile isPyWs).reverse.dropWhile isPyWs ≠ [] := by
    intro hnil
    rw [hnil] at h
    simp at h
  have h1 : ((cs.dropWhile isPyWs).reverse.dropWhile isPyWs).getLast? = some c := by
    rw [← List.head?_reverse, h]
    rfl
  have h2 : (cs.dropWhile isPyWs).reverse.getLast? = some c := by
    rw [getLast?_of_suffix (List.dropWhile_suffix isPyWs) hd2ne]
    exact h1
  have h3 : (cs.dropWhile isPyWs).head? = some c := by
    rw [← List.getLast?_reverse]
    exact h2
  cases hd : cs.dropWhile isPyWs with
  | nil => rw [hd] at h3; simp at h3
  | cons x xs =>
    rw [hd] at h3
    simp only [List.head?_cons, Option.some.injEq] at h3
    subst h3
    exact dropWhile_head_not isPyWs cs x xs hd

theorem pyStripL_last (cs : List Char) (c : Char)
    (h : (pyStripL cs).getLast? = some c) : isPyWs c = false := by
  unfold pyStripL at h
  rw [List.getLast?_reverse] at h
  cases hd : (cs.dropWhile isPyWs).reverse.dropWhile isPyWs with
  | nil => rw [hd] at h; simp at h
  | cons x xs =>
    rw [hd] at h
    simp only [List.head?_cons, Option.some.injEq] at h
    subst h
    exact dropWhile_head_not isPyWs _ x xs hd

theorem pyStripL_eq_self (l : List Char)
    (h1 : ∀ c, l.head? = some c → isPyWs c = false)
    (h2 : ∀ c, l.getLast? = some c → isPyWs c = false) : pyStripL l = l := by
  unfold pyStripL
  rw [dropWhile_eq_self isPyWs l h1]
  rw [dropWhile_eq_self isPyWs l.reverse
    (by intro c hc; rw [List.head?_reverse] at hc; exact h2 c hc)]
  exact List.reverse_reverse l

theorem pyStripL_idem (cs : List Char) : pyStripL (pyStripL cs) = pyStripL cs := by
  apply pyStripL_eq_self
  · intro c hc
    cases h : pyStripL cs with
    | nil => rw [h] at hc; simp at hc
    | cons x xs =>
      rw [h] at hc
      simp only [List.head?_cons, Option.some.injEq] at hc
      subst hc
      exact pyStripL_head cs _ _ h
  · intro c hc
    exact pyStripL_last cs c hc

theorem stripBullet_clean (cs : List Char) (h : stripBulletL (pyStripL cs) ≠ []) :
    pyStripL (stripBulletL (pyStripL cs)) = stripBulletL (pyStripL cs) := by
  cases hr : pyStripL cs with
  | nil => rw [hr] at h; simp [stripBulletL] at h
  | cons x xs =>
    rw [hr] at h
    by_cases hb : (x = '-' || x = '*') = true
    · have hsb : stripBulletL (x :: xs) = xs.dropWhile isPyWs := by
        simp [stripBulletL, hb]
      rw [hsb] at h
      rw [hsb]
      apply pyStripL_eq_self
      · intro c hc
        cases hd : xs.dropWhile isPyWs with
        | nil => rw [hd] at hc; simp at hc
        | cons y ys =>
          rw [hd] at hc
          simp only [List.head?_cons, Option.some.injEq] at hc
          subst hc
          exact dropWhile_head_not isPyWs xs _ _ hd
      · intro c hc
        have hsuf : xs.dropWhile isPyWs <:+ x :: xs :=
          (List.dropWhile_suffix isPyWs).trans (List.suffix_cons x xs)
        have hlast : (x :: xs).getLast? = some c := by
          rw [getLast?_of_suffix hsuf h]
          exact hc
        rw [← hr] at hlast
        exact pyStripL_last cs c hlast
    · have hsb : stripBulletL (x :: xs) = x :: xs := by
        simp only [stripBulletL]
        rw [if_neg]
        simpa using hb
      rw [hsb]
      rw [← hr]
      exact pyStripL_idem cs

theorem mem_pyStripL {c : Char} {cs : List Char} (h : c ∈ pyStripL cs) : c ∈ cs := by
  unfold pyStripL at h
  rw [List.mem_reverse] at h
  have h2 := (List.dropWhile_suffix isPyWs).subset h
  rw [List.mem_reverse] at h2
  exact (List.dropWhile_suffix isPyWs).subset h2

theorem mem_stripBulletL {c : Char} {l : List Char} (h : c ∈ stripBulletL l) : c ∈ l := by
  cases l with
  | nil => simp [stripBulletL] at h
  | cons x xs =>
    by_cases hb : (x = '-' || x = '*') = true
    · simp only [stripBulletL, hb, if_true] at h
      exact List.mem_cons_of_mem x ((List.dropWhile_suffix isPyWs).subset h)
    · simp only [stripBulletL, hb, if_false] at h
      exact h

theorem splitLines_no_nl : ∀ (cs l : List Char), l ∈ splitLines cs → '\n' ∉ l := by
  intro cs
  induction cs with
  | nil =>
    intro l hl
    simp only [splitLines, List.mem_singleton] at hl
    subst hl
    simp
  | cons c rest ih =>
    intro l hl
    by_cases hc : c = '\n'
    · simp only [splitLines, hc, if_true] at hl
      rcases List.mem_cons.mp hl with rfl | hl'
      · simp
      · exact ih l hl'
    · simp only [splitLines, hc, if_false] at hl
      cases hsp : splitLines rest with
      | nil =>
        rw [hsp] at hl
        simp only [List.mem_singleton] at hl
        subst hl
        intro hmem
        rw [List.mem_singleton] at hmem
        exact hc hmem.symm
      | cons l0 ls =>
        rw [hsp] at hl
        rcases List.mem_cons.mp hl with rfl | hl'
        · intro hmem
          rcases List.mem_cons.mp hmem with h1 | h1
          · exact hc h1.symm
          · exact ih l0 (hsp ▸ List.mem_cons_self l0 ls) h1
        · exact ih l (hsp ▸ List.mem_cons_of_mem l0 hl')

theorem splitLines_nl_free : ∀ (l : List Char), '\n' ∉ l → splitLines l = [l] := by
  intro l
  induction l with
  | nil => intro _; rfl
  | cons c t ih =>
    intro h
    have hc : ¬ c = '\n' := fun hcc => h (hcc ▸ List.mem_cons_self c t)
    have ht : '\n' ∉ t := fun hm => h (List.mem_cons_of_mem c hm)
    simp only [splitLines, hc, if_false, ih ht]

theorem splitLines_append : ∀ (l rest : List Char), '\n' ∉ l →
    splitLines (l ++ '\n' :: rest) = l :: splitLines rest := by
  intro l
  induction l with
  | nil => intro rest _; simp [splitLines]
  | cons c t ih =>
    intro rest h
    have hc : ¬ c = '\n' := fun hcc => h (hcc ▸ List.mem_cons_self c t)
    have ht : '\n' ∉ t := fun hm => h (List.mem_cons_of_mem c hm)
    have hrec := ih rest ht
    rw [List.cons_append]
    simp only [splitLines, hc, if_false]
    rw [hrec]

theorem splitLines_join : ∀ (ds : List (List Char)), (∀ l ∈ ds, '\n' ∉ l) → ds ≠ [] →
    splitLines (joinLinesL ds) = ds := by
  intro ds
  induction ds with
  | nil => intro _ hne; exact absurd rfl hne
  | cons d ds' ih =>
    intro h _
    cases ds' with
    | nil => exact splitLines_nl_free d (h d (List.mem_cons_self d []))
    | cons e es =>
      have hj : joinLinesL (d :: e :: es) = d ++ '\n' :: joinLinesL (e :: es) := rfl
      rw [hj, splitLines_append d _ (h d (List.mem_cons_self d (e :: es)))]
      rw [ih (fun l hl => h l (List.mem_cons_of_mem d hl)) (by simp)]

theorem emitLine_eq (raw : List Char) :
    emitLine raw =
      if qualifies raw = true then some (mkDefaultItem (stripBulletL (pyStripL raw)))
      else none := by
  unfold emitLine qualifies
  by_cases hA : pyStripL raw ≠ []
  · by_cases hB : ((pyStripL raw).head? = some '-' ∨ (pyStripL raw).head? = some '*' ∨
        containsSubL ((pyStripL raw).map Char.toLower) actionPat = true)
    · by_cases hC : stripBulletL (pyStripL raw) ≠ []
      · simp [hA, hB, hC]
      · simp [hA, hB, hC]
    · simp [hA, hB]
  · simp [hA]

theorem mem_fallback (s : String) (a : ActionItem) (h : a ∈ parse_text_action_items s) :
    ∃ raw ∈ splitLines s.data, qualifies raw = true ∧
      a = mkDefaultItem (stripBulletL (pyStripL raw)) := by
  unfold parse_text_action_items at h
  have h1 := List.mem_of_mem_take h
  rw [List.mem_filterMap] at h1
  obtain ⟨raw, hraw, hemit⟩ := h1
  rw [emitLine_eq] at hemit
  by_cases hq : qualifies raw = true
  · rw [if_pos hq] at hemit
    exact ⟨raw, hraw, hq, (Option.some_inj.mp hemit).symm⟩
  · rw [if_neg hq] at hemit
    cases hemit

theorem fallback_desc_clean (s : String) (a : ActionItem)
    (h : a ∈ parse_text_action_items s) : pyStrip a.description ≠ "" := by
  obtain ⟨raw, _, hq, ha⟩ := mem_fallback s a h
  subst ha
  have hq' := of_decide_eq_true hq
  have hC : stripBulletL (pyStripL raw) ≠ [] := hq'.2.2
  show pyStrip ⟨stripBulletL (pyStripL raw)⟩ ≠ ""
  unfold pyStrip
  intro hcontra
  apply hC
  have hdata := congrArg String.data hcontra
  simp only at hdata
  rw [stripBullet_clean raw hC] at hdata
  exact hdata

theorem fallback_desc_no_nl (s : String) (a : ActionItem)
    (h : a ∈ parse_text_action_items s) : '\n' ∉ a.description.data := by
  obtain ⟨raw, hraw, _, ha⟩ := mem_fallback s a h
  subst ha
  intro hmem
  exact splitLines_no_nl s.data raw hraw (mem_pyStripL (mem_stripBulletL hmem))

theorem strOrAbsent_cases (o : Option JValue) (h : strOrAbsent o = true) :
    o = none ∨ ∃ s, o = some (JValue.str s) := by
  cases o with
  | none => exact Or.inl rfl
  | some v =>
    cases v with
    | str s => exact Or.inr ⟨s, rfl⟩
    | num l => simp [strOrAbsent] at h
    | jbool b => simp [strOrAbsent] at h
    | jnull => simp [strOrAbsent] at h
    | arr es => simp [strOrAbsent] at h
    | obj fs => simp [strOrAbsent] at h

theorem pyStrip_idem (s : String) : pyStrip (pyStrip s) = pyStrip s := by
  unfold pyStrip
  exact congrArg String.mk (pyStripL_idem s.data)

theorem cleanItem_good (v : JValue) (h : goodItem v = true) :
    cleanItem v = some (some (expectedClean v)) := by
  cases v with
  | str s => simp [goodItem] at h
  | num l => simp [goodItem] at h
  | jbool b => simp [goodItem] at h
  | jnull => simp [goodItem] at h
  | arr es => simp [goodItem] at h
  | obj fields =>
    simp only [goodItem, Bool.and_eq_true, Bool.and_true] at h
    obtain ⟨⟨⟨hdesc, hassign⟩, hdue⟩, hprio⟩ := h
    cases hd : getField fields "description" with
    | none => rw [hd] at hdesc; simp at hdesc
    | some dv =>
      cases dv with
      | str d =>
        rw [hd] at hdesc
        simp only [bne_iff_ne, ne_eq] at hdesc
        rcases strOrAbsent_cases _ hassign with ha | ⟨sa, ha⟩ <;>
          rcases strOrAbsent_cases _ hdue with hdu | ⟨sdu, hdu⟩ <;>
          rcases strOrAbsent_cases _ hprio with hp | ⟨sp, hp⟩ <;>
            simp [cleanItem, cleanedField, expectedClean, hd, ha, hdu, hp, hdesc,
              (show pyStrip "" = "" from rfl),
              (show pyStrip "Unassigned" = "Unassigned" from rfl),
              (show pyStrip "No due date specified" = "No due date specified" from rfl),
              (show pyStrip "Medium" = "Medium" from rfl)]
      | num l => rw [hd] at hdesc; simp at hdesc
      | jbool b => rw [hd] at hdesc; simp at hdesc
      | jnull => rw [hd] at hdesc; simp at hdesc
      | arr es => rw [hd] at hdesc; simp at hdesc
      | obj fs => rw [hd] at hdesc; simp at hdesc

theorem cleanItems_good : ∀ (items : List JValue), (∀ v ∈ items, goodItem v = true) →
    cleanItems items = some (items.map expectedClean) := by
  intro items
  induction items with
  | nil => intro _; rfl
  | cons v vs ih =>
    intro h
    have hv := cleanItem_good v (h v (List.mem_cons_self v vs))
    have hvs := ih fun w hw => h w (List.mem_cons_of_mem v hw)
    simp [cleanItems, hv, hvs]

theorem cleanedField_shape (fields : List (String × JValue)) (k dflt s : String)
    (h : cleanedField fields k dflt = some s) : ∃ x, s = pyStrip x := by
  unfold cleanedField at h
  split at h
  · exact ⟨dflt, (Option.some_inj.mp h).symm⟩
  · exact ⟨_, (Option.some_inj.mp h).symm⟩
  · cases h

theorem cleanItem_some_desc (v : JValue) (a : ActionItem)
    (h : cleanItem v = some (some a)) : pyStrip a.description ≠ "" := by
  cases v with
  | str s => simp [cleanItem] at h
  | num l => simp [cleanItem] at h
  | jbool b => simp [cleanItem] at h
  | jnull => simp [cleanItem] at h
  | arr es => simp [cleanItem] at h
  | obj fields =>
    simp only [cleanItem] at h
    by_cases hsome : (getField fields "description").isSome
    · rw [if_pos hsome] at h
      split at h
      · next d a' dd p heq1 heq2 heq3 heq4 =>
        split at h
        · next hne =>
          simp only [Option.some.injEq] at h
          subst h
          obtain ⟨x, hx⟩ := cleanedField_shape _ _ _ _ heq1
          show pyStrip d ≠ ""
          rw [hx, pyStrip_idem]
          rw [hx] at hne
          exact hne
        · simp at h
      · next hfall => cases h
    · rw [if_neg hsome] at h
      cases h

theorem cleanItems_desc : ∀ (items : List JValue) (cleaned : List ActionItem),
    cleanItems items = some cleaned → ∀ a ∈ cleaned, pyStrip a.description ≠ "" := by
  intro items
  induction items with
  | nil =>
    intro cleaned h a ha
    simp only [cleanItems, Option.some.injEq] at h
    subst h
    simp at ha
  | cons v vs ih =>
    intro cleaned h a ha
    cases hc : cleanItem v with
    | none => rw [cleanItems, hc] at h; cases h
    | some o =>
      rw [cleanItems, hc] at h
      cases hrest : cleanItems vs with
      | none => rw [hrest] at h; cases h
      | some rest =>
        rw [hrest] at h
        simp only [Option.map_some', Option.some.injEq] at h
        subst h
        cases o with
        | none => exact ih rest hrest a ha
        | some a0 =>
          rcases List.mem_cons.mp ha with rfl | ha'
          · exact cleanItem_some_desc v a hc
          · exact ih rest hrest a ha'

theorem fallback_eq (s : String)
    (h : extractRegionL s.data = none ∨
      ∃ region, extractRegionL s.data = some region ∧ json_loads region = none) :
    parse_action_items s = parse_text_action_items s := by
  rcases h with h | ⟨region, h1, h2⟩
  · simp [parse_action_items, h]
  · simp [parse_action_items, h1, h2]

theorem filterMap_eq_filter_map {α β : Type} (f : α → Option β) (q : α → Bool) (g : α → β)
    (hf : ∀ x, f x = if q x = true then some (g x) else none) :
    ∀ l : List α, l.filterMap f = (l.filter q).map g := by
  intro l
  induction l with
  | nil => rfl
  | cons x xs ih =>
    rw [List.filterMap_cons, List.filter_cons, hf x]
    by_cases hq : q x = true
    · rw [if_pos hq, if_pos hq, List.map_cons, ih]
    · rw [if_neg hq, if_neg hq, ih]

/-! ## Claim theorems -/

/-- Claim C1, counterexample.  The input `c1Input` contains a
well-formed JSON array of one object whose `description` field is the
non-empty string `"x"`, yet the extractor returns the empty sequence
(length 0, not 1): the object's `priority` field is a JSON number, so
`.strip()` raises inside the cleanup loop and `_parse_action_items`
returns `[]`. -/
theorem c1_counterexample :
    extractRegionL c1Input.data = some c1Input.data ∧
    json_loads c1Input.data =
      some (JValue.arr
        [JValue.obj [("description", JValue.str "x"), ("priority", JValue.num "3")]]) ∧
    pyStrip "x" ≠ "" ∧
    parse_action_items c1Input = [] :=
  ⟨rfl, rfl, by decide, rfl⟩

/-- Claim C1, amended.  For every input whose extracted bracket region
parses as a JSON array in which every element is an object whose
`description` is a string non-empty after stripping and whose
`assignee`, `due_date` and `priority` fields are strings when present,
the extractor returns exactly one cleaned record per element, in array
order, with each present field stripped and each missing field
defaulted to `"Unassigned"`, `"No due date specified"` and `"Medium"`
(see `expectedClean`). -/
theorem c1_structured_path_amended (s : String) (region : List Char) (items : List JValue)
    (h1 : extractRegionL s.data = some region)
    (h2 : json_loads region = some (JValue.arr items))
    (h3 : ∀ v ∈ items, goodItem v = true) :
    parse_action_items s = items.map expectedClean ∧
    (parse_action_items s).length = items.length := by
  have heq : parse_action_items s = items.map expectedClean := by
    simp [parse_action_items, h1, h2, cleanItems_good items h3]
  exact ⟨heq, by rw [heq, List.length_map]⟩

/-- Witness for `c1_structured_path_amended` at a concrete two-object
array with both present and missing optional fields. -/
theorem c1_structured_path_witness :
    parse_action_items c1WitnessInput =
      [⟨"Send report", "Bob", "No due date specified", "Medium"⟩,
       ⟨"Ping team", "Unassigned", "No due date specified", "Medium"⟩] ∧
    (parse_action_items c1WitnessInput).length = 2 :=
  c1_structured_path_amended c1WitnessInput c1WitnessInput.data
    [JValue.obj [("description", JValue.str "Send report"), ("assignee", JValue.str "Bob")],
     JValue.obj [("description", JValue.str "Ping team")]]
    rfl rfl (by decide)

/-- Claim C2, counterexample.  On `c2Input` the structured path fails
internally while normalizing (the parsed `description` is a number, so
`.strip()` raises), but the result is `[]`, not the fallback's result,
which is one item. -/
theorem c2_counterexample :
    extractRegionL c2Input.data = some ("[\x7b\"description\": 5\x7d]" : String).data ∧
    json_loads ("[\x7b\"description\": 5\x7d]" : String).data =
      some (JValue.arr [JValue.obj [("description", JValue.num "5")]]) ∧
    parse_action_items c2Input = [] ∧
    parse_text_action_items c2Input =
      [⟨"Action one", "Unassigned", "No due date specified", "Medium"⟩] :=
  ⟨rfl, rfl, rfl, rfl⟩

/-- Claim C2, amended.  The extractor is a total function (never
raises).  When no bracket pair exists, or the bracketed region fails to
decode as JSON, the result equals the line-based fallback applied to the
whole input; when the region decodes but the cleanup loop raises, the
result is the empty list.  The fallback itself is total and at worst
returns the empty sequence. -/
theorem c2_error_paths_amended (s : String) :
    (extractRegionL s.data = none → parse_action_items s = parse_text_action_items s) ∧
    (∀ region, extractRegionL s.data = some region → json_loads region = none →
      parse_action_items s = parse_text_action_items s) ∧
    (∀ region items, extractRegionL s.data = some region →
      json_loads region = some (JValue.arr items) → cleanItems items = none →
      parse_action_items s = []) := by
  refine ⟨fun h => fallback_eq s (Or.inl h),
    fun region h1 h2 => fallback_eq s (Or.inr ⟨region, h1, h2⟩), ?_⟩
  intro region items h1 h2 h3
  simp [parse_action_items, h1, h2, h3]

/-- Witness for `c2_error_paths_amended`: a malformed bracketed region
triggers the fallback. -/
theorem c2_error_paths_witness :
    parse_action_items "x[oops]" = parse_text_action_items "x[oops]" :=
  (c2_error_paths_amended "x[oops]").2.1 ("[oops]" : String).data rfl rfl

/-- Claim C3, counterexample.  On `"No action items this week."` the
extractor does not return the empty sequence: the line contains the
substring `action`, so the fallback emits it. -/
theorem c3_counterexample :
    parse_action_items "No action items this week." ≠ [] := by decide

/-- Claim C3, amended.  On `"No action items this week."` (no bracket
pair) the extractor returns exactly one record whose description is the
whole line, with all other fields at their defaults, because the
`action` substring test is independent of the bullet prefix. -/
theorem c3_no_action_items_amended :
    parse_action_items "No action items this week." =
      [⟨"No action items this week.", "Unassigned", "No due date specified", "Medium"⟩] :=
  rfl

/-- Claim C4, counterexample.  When the wrapped generative backend
raises during both `generate_summary` and `extract_action_items`, the
request is answered with a 200 success payload (error text as the
summary, empty action items) — the failure does not propagate and no
500 is returned. -/
theorem c4_counterexample :
    (process_audio true "m.wav" (Except.ok "hello")
        (Except.error "LLM service unavailable: down")
        (Except.error "LLM service unavailable: down")
        (Except.ok 1) (fun _ => Except.ok ())).1 =
      Response.success 1 "Error generating summary: LLM service unavailable: down" [] "hello" :=
  rfl

/-- Claim C4, amended.  A backend failure during `generate_summary` is
caught and turned into the string `"Error generating summary: <err>"`
(returned unformatted), a failure during `extract_action_items` is
caught and yields `[]`, and a request whose only failures are these two
calls completes as a success response carrying those degraded values;
no retry happens and no error reaches the HTTP layer from these calls. -/
theorem c4_llm_failure_amended (e1 e2 fname t : String) (id : Nat) (h : fname ≠ "") :
    generate_summary (Except.error e1) = "Error generating summary: " ++ e1 ∧
    extract_action_items (Except.error e2) = [] ∧
    (process_audio true fname (Except.ok t) (Except.error e1) (Except.error e2)
        (Except.ok id) (fun _ => Except.ok ())).1 =
      Response.success id ("Error generating summary: " ++ e1) []
        (if t.length > 500 then t.take 500 ++ "..." else t) := by
  refine ⟨rfl, rfl, ?_⟩
  simp [process_audio, h, generate_summary, extract_action_items, runSaves]

/-- Witness for `c4_llm_failure_amended` at concrete error messages. -/
theorem c4_llm_failure_witness :
    generate_summary (Except.error "down") = "Error generating summary: down" ∧
    extract_action_items (Except.error "down2") = [] ∧
    (process_audio true "m.wav" (Except.ok "hi") (Except.error "down") (Except.error "down2")
        (Except.ok 3) (fun _ => Except.ok ())).1 =
      Response.success 3 "Error generating summary: down" [] "hi" :=
  c4_llm_failure_amended "down" "down2" "m.wav" "hi" 3 (by decide)

/-- Claim C5.  Whenever the line-based fallback runs (no bracket pair,
or a bracketed region that fails to decode), the extractor's output has
at most 10 entries; and on the concrete input with 15 qualifying bullet
lines and no JSON array the output is exactly the first 10 lines'
records in input order. -/
theorem c5_fallback_cap (s : String)
    (h : extractRegionL s.data = none ∨
      ∃ region, extractRegionL s.data = some region ∧ json_loads region = none) :
    (parse_action_items s).length ≤ 10 ∧
    parse_action_items fifteenBullets = firstTenItems := by
  constructor
  · rw [fallback_eq s h]
    unfold parse_text_action_items
    rw [List.length_take]
    exact Nat.min_le_left _ _
  · rfl

/-- Witness for `c5_fallback_cap` at a bracket-free input. -/
theorem c5_fallback_cap_witness :
    (parse_action_items "hello").length ≤ 10 ∧
    parse_action_items fifteenBullets = firstTenItems :=
  c5_fallback_cap "hello" (Or.inl rfl)

/-- Claim C6.  The fallback emits a line exactly when `qualifies` holds
— after stripping it is non-empty, and it starts with `-` or `*` or its
lowercase form contains `"action"`, and something remains after
removing one leading bullet marker — keeping the first 10 such lines;
on the concrete scenario-2 input the output is the two bulleted
records with default fields. -/
theorem c6_fallback_rule :
    (∀ s : String, parse_text_action_items s =
      (((splitLines s.data).filter qualifies).map
        (fun l => mkDefaultItem (stripBulletL (pyStripL l)))).take 10) ∧
    parse_action_items "- Follow up with client\n* Schedule demo\nNo other notes." =
      [⟨"Follow up with client", "Unassigned", "No due date specified", "Medium"⟩,
       ⟨"Schedule demo", "Unassigned", "No due date specified", "Medium"⟩] := by
  constructor
  · intro s
    unfold parse_text_action_items
    rw [filterMap_eq_filter_map emitLine qualifies
      (fun l => mkDefaultItem (stripBulletL (pyStripL l))) emitLine_eq]
  · rfl

/-- Claim C7.  In both tiers every emitted record's description is
non-empty after stripping whitespace; and on the concrete scenario-1
input the output is the single good record, the empty-description entry
being dropped. -/
theorem c7_nonempty_descriptions :
    (∀ (s : String) (a : ActionItem), a ∈ parse_action_items s →
      pyStrip a.description ≠ "") ∧
    parse_action_items scenario1Input = [⟨"Send report", "Bob", "2024-01-05", "High"⟩] := by
  constructor
  · intro s a ha
    cases hreg : extractRegionL s.data with
    | none =>
      rw [fallback_eq s (Or.inl hreg)] at ha
      exact fallback_desc_clean s a ha
    | some region =>
      cases hjson : json_loads region with
      | none =>
        rw [fallback_eq s (Or.inr ⟨region, hreg, hjson⟩)] at ha
        exact fallback_desc_clean s a ha
      | some v =>
        cases v with
        | arr items =>
          cases hclean : cleanItems items with
          | none =>
            rw [show parse_action_items s = [] by
              simp [parse_action_items, hreg, hjson, hclean]] at ha
            exact absurd ha (List.not_mem_nil a)
          | some cleaned =>
            rw [show parse_action_items s = cleaned by
              simp [parse_action_items, hreg, hjson, hclean]] at ha
            exact cleanItems_desc items cleaned hclean a ha
        | str x =>
          rw [show parse_action_items s = [] by simp [parse_action_items, hreg, hjson]] at ha
          exact absurd ha (List.not_mem_nil a)
        | num x =>
          rw [show parse_action_items s = [] by simp [parse_action_items, hreg, hjson]] at ha
          exact absurd ha (List.not_mem_nil a)
        | jbool b =>
          rw [show parse_action_items s = [] by simp [parse_action_items, hreg, hjson]] at ha
          exact absurd ha (List.not_mem_nil a)
        | jnull =>
          rw [show parse_action_items s = [] by simp [parse_action_items, hreg, hjson]] at ha
          exact absurd ha (List.not_mem_nil a)
        | obj fs =>
          rw [show parse_action_items s = [] by simp [parse_action_items, hreg, hjson]] at ha
          exact absurd ha (List.not_mem_nil a)
  · rfl

/-- Witness for `c7_nonempty_descriptions` at a one-bullet input. -/
theorem c7_nonempty_descriptions_witness : pyStrip "hi" ≠ "" :=
  c7_nonempty_descriptions.1 "- hi"
    ⟨"hi", "Unassigned", "No due date specified", "Medium"⟩ (by decide)

/-- Claim C8, counterexample.  On `c8Input` the first run takes the
fallback path and emits one record, but re-running the extractor on the
plain-text rendering of that output yields three records: the rendered
description contains a well-formed bracketed array, so the re-run takes
the structured path.  The re-run output is longer than the original. -/
theorem c8_counterexample :
    (parse_text_action_items c8Input).length = 1 ∧
    (parse_action_items
      (renderLines ((parse_text_action_items c8Input).map ActionItem.description))).length = 3 :=
  ⟨rfl, rfl⟩

/-- Bound for the re-run of the fallback on its own rendered output. -/
theorem rerun_bound (items : List ActionItem)
    (hnl : ∀ a ∈ items, '\n' ∉ a.description.data) (hne : items ≠ []) :
    (parse_text_action_items (renderLines (items.map ActionItem.description))).length ≤
      items.length := by
  have hsplit : splitLines (renderLines (items.map ActionItem.description)).data =
      (items.map ActionItem.description).map String.data := by
    refine splitLines_join _ ?_ ?_
    · intro l hl
      rw [List.mem_map] at hl
      obtain ⟨dstr, hd1, rfl⟩ := hl
      rw [List.mem_map] at hd1
      obtain ⟨a, ha, rfl⟩ := hd1
      exact hnl a ha
    · simpa [List.map_eq_nil_iff] using hne
  unfold parse_text_action_items
  rw [hsplit]
  have h1 : (((((items.map ActionItem.description).map String.data).filterMap emitLine)).take
      10).length ≤
      (((items.map ActionItem.description).map String.data).filterMap emitLine).length := by
    rw [List.length_take]
    exact Nat.min_le_right _ _
  have h2 := List.length_filterMap_le emitLine ((items.map ActionItem.description).map String.data)
  have h3 : (((items.map ActionItem.description).map String.data)).length = items.length := by
    simp
  omega

/-- Claim C8, amended.  Re-running the extractor on the rendering of
its own fallback output cannot crash (the extractor is a total
function); when the re-run also takes the line-based path — in
particular whenever the rendering contains no parseable bracketed array
— its output is no longer than the original fallback output, which is
itself capped at 10; but when the rendering contains a parseable
bracketed array the re-run may return more items than the original (see
the counterexample). -/
theorem c8_idempotence_amended (s : String) :
    (parse_text_action_items
        (renderLines ((parse_text_action_items s).map ActionItem.description))).length ≤
      (parse_text_action_items s).length ∧
    (parse_text_action_items s).length ≤ 10 := by
  constructor
  · by_cases hne : parse_text_action_items s = []
    · rw [hne]
      exact Nat.le_refl 0
    · exact rerun_bound (parse_text_action_items s)
        (fun a ha => fallback_desc_no_nl s a ha) hne
  · unfold parse_text_action_items
    rw [List.length_take]
    exact Nat.min_le_left _ _

/-- Claim C9.  On every successful `process_audio` response, the
transcription field is the full transcription when it has at most 500
characters, and its first 500 characters followed by `"..."` otherwise. -/
theorem c9_transcription_truncation (hasFile : Bool) (fname : String)
    (su ex : Except String String) (sm : Except String Nat)
    (si : ActionItem → Except String Unit) (transcription : String)
    (id : Nat) (summary : String) (items : List ActionItem) (t : String)
    (h : (process_audio hasFile fname (Except.ok transcription) su ex sm si).1 =
      Response.success id summary items t) :
    (transcription.length ≤ 500 → t = transcription) ∧
    (500 < transcription.length → t = transcription.take 500 ++ "...") := by
  cases hasFile with
  | false => simp [process_audio] at h
  | true =>
    by_cases hf : fname = ""
    · simp [process_audio, hf] at h
    · cases sm with
      | error e0 => simp [process_audio, hf] at h
      | ok mid =>
        cases hr : runSaves si (extract_action_items ex) with
        | error e0 => simp [process_audio, hf, hr] at h
        | ok u =>
          have h' : (process_audio true fname (Except.ok transcription) su ex
              (Except.ok mid) si).1 =
              Response.success mid (generate_summary su) (extract_action_items ex)
                (if transcription.length > 500 then transcription.take 500 ++ "..."
                 else transcription) := by
            simp [process_audio, hf, hr]
          rw [h'] at h
          injection h with h1 h2 h3 h4
          constructor
          · intro hle
            rw [← h4, if_neg (by omega)]
          · intro hgt
            rw [← h4, if_pos (by omega)]

/-- Witness for `c9_transcription_truncation` on a short transcription. -/
theorem c9_transcription_truncation_witness :
    ((("hello" : String).length ≤ 500 → ("hello" : String) = "hello") ∧
     (500 < ("hello" : String).length →
       ("hello" : String) = ("hello" : String).take 500 ++ "...")) :=
  c9_transcription_truncation true "m.wav" (Except.ok "s") (Except.ok "r") (Except.ok 1)
    (fun _ => Except.ok ()) "hello" 1 "# Meeting Summary\n\ns" [] "hello" rfl

/-- Claim C10.  The uploaded file is removed exactly on the paths that
do not save it or that succeed: the remaining-file flag is `false` iff
the response is a success or a 400 client error; on every 500 response
(a step after the save raised) the file remains in the uploads
directory and the error body carries the raised message unchanged. -/
theorem c10_file_cleanup (hasFile : Bool) (fname : String)
    (tr su ex : Except String String) (sm : Except String Nat)
    (si : ActionItem → Except String Unit) :
    ((process_audio hasFile fname tr su ex sm si).2 = false ↔
      ((∃ id summary items t,
          (process_audio hasFile fname tr su ex sm si).1 =
            Response.success id summary items t) ∨
        (∃ msg, (process_audio hasFile fname tr su ex sm si).1 =
          Response.failure 400 msg))) ∧
    (∀ e, (process_audio hasFile fname tr su ex sm si).1 = Response.failure 500 e →
      (process_audio hasFile fname tr su ex sm si).2 = true) := by
  cases hasFile with
  | false =>
    constructor
    · simp [process_audio]
    · intro e he
      simp [process_audio] at he
  | true =>
    by_cases hf : fname = ""
    · constructor
      · simp [process_audio, hf]
      · intro e he
        simp [process_audio, hf] at he
    · cases tr with
      | error e0 =>
        constructor
        · simp [process_audio, hf]
        · intro e he
          simp [process_audio, hf]
      | ok t0 =>
        cases sm with
        | error e0 =>
          constructor
          · simp [process_audio, hf]
          · intro e he
            simp [process_audio, hf]
        | ok mid =>
          cases hr : runSaves si (extract_action_items ex) with
          | error e0 =>
            constructor
            · simp [process_audio, hf, hr]
            · intro e he
              simp [process_audio, hf, hr]
          | ok u =>
            constructor
            · simp [process_audio, hf, hr]
            · intro e he
              simp [process_audio, hf, hr] at he

/-- Witness for `c10_file_cleanup`: a failing transcription leaves the
upload on disk. -/
theorem c10_file_cleanup_witness :
    (process_audio true "m.wav" (Except.error "boom") (Except.ok "") (Except.ok "")
        (Except.ok 0) (fun _ => Except.ok ())).2 = true :=
  (c10_file_cleanup true "m.wav" (Except.error "boom") (Except.ok "") (Except.ok "")
    (Except.ok 0) (fun _ => Except.ok ())).2 "boom" rfl
